import Mathlib

/-!
Verification development for the nxhttp CGI gateway (Go).

The definitions below are a shallow embedding of the parts of the
repository that the checked properties talk about:

* the stdout-piping goroutine of `CgiProcessor.Process` (src/cgi.go,
  second revision, lines 382-455): a two-state translator that reads
  the subprocess output in chunks through a persistent 512-byte buffer,
  looks for the header/body separator with the regexp `\r?\n\r?\n`,
  parses the accumulated header block, and forwards status, headers and
  body to the `http.ResponseWriter`;
* the environment assembly of `CgiProcessor.Process` (src/cgi.go,
  lines 294-316);
* `NxContext.End` / `SendBytes` / `SendString` / `UrlParam`
  (src/context.go);
* `DefaultProcessor.SetTimeout` (src/unnamed/part_000) and
  `BaseEntry.SetTimeout` (src/entry.go).

Bytes are modelled as `Nat` (the stream is byte-wise; Go strings are
byte slices, and every string operation the code performs on the
subprocess output is byte-wise).  Go runtime panics (out-of-range
indexing) are modelled with `Except GoPanic`.
-/

set_option maxRecDepth 4000

/-- A byte of the subprocess output stream. -/
abbrev Byte := Nat

/-- Carriage return. -/
def CR : Byte := 13

/-- Line feed. -/
def LF : Byte := 10

/-- The bytes of a string literal, for concrete inputs. -/
def strBytes (s : String) : List Byte := s.data.map Char.toNat

/-- A Go runtime fault of the embedded code. -/
inductive GoPanic where
  | indexOutOfRange
deriving DecidableEq, Repr

/-- The `http.ResponseWriter` sink as the translator sees it: the status
committed by the first `WriteHeader` call, the log of `Header().Set`
calls, and the body bytes written. -/
structure RW where
  committed : Option Int
  hdrSet : List (List Byte × List Byte)
  out : List Byte
deriving DecidableEq, Repr

/-- Fresh response writer. -/
def initRW : RW := ⟨none, [], []⟩

/-- `w.WriteHeader(s)`: net/http ignores a second call. -/
def wWriteHeader (w : RW) (s : Int) : RW :=
  if w.committed = none then { w with committed := some s } else w

/-- `w.Write(b)`. -/
def wWrite (w : RW) (b : List Byte) : RW := { w with out := w.out ++ b }

/-- Match attempt of the Go regexp `\r?\n\r?\n` at the head of the list,
with Go's leftmost-first (greedy `\r?`) preference; returns the matched
length. -/
def eohAt : List Byte → Option Nat
  | 13 :: 10 :: 13 :: 10 :: _ => some 4
  | 13 :: 10 :: 10 :: _ => some 3
  | 10 :: 13 :: 10 :: _ => some 3
  | 10 :: 10 :: _ => some 2
  | _ => none

/-- Scan for the leftmost match of `\r?\n\r?\n`, carrying the current
offset. -/
def findEohAux : List Byte → Nat → Option (Nat × Nat)
  | [], _ => none
  | b :: rest, i =>
    match eohAt (b :: rest) with
    | some len => some (i, i + len)
    | none => findEohAux rest (i + 1)

/-- `eoh.FindIndex(buf)` for `eoh = \r?\n\r?\n`: the pair
`[start, end)` of the leftmost-first match, if any. -/
def findEoh (l : List Byte) : Option (Nat × Nat) := findEohAux l 0

/-- `strings.Split(s, "\n")` on bytes (keeps empty parts; `Split("") = [""]`). -/
def splitOnByte (sep : Byte) : List Byte → List (List Byte)
  | [] => [[]]
  | b :: rest =>
    match splitOnByte sep rest with
    | [] => [[]]
    | h :: t => if b = sep then [] :: h :: t else (b :: h) :: t

/-- `strings.SplitN(s, ":", 2)` on bytes: the part before the first
colon, and - when a colon exists - the rest. -/
def splitOnceColon : List Byte → List Byte × Option (List Byte)
  | [] => ([], none)
  | b :: rest =>
    if b = 58 then ([], some rest)
    else
      let r := splitOnceColon rest
      (b :: r.1, r.2)

/-- `strings.Trim(s, " ")` on bytes. -/
def trimSpaces (s : List Byte) : List Byte :=
  ((s.dropWhile (fun b => b = 32)).reverse.dropWhile (fun b => b = 32)).reverse

/-- ASCII lower-casing of a byte (`strings.ToLower` on the ASCII header
names the code compares). -/
def lowerByte (b : Byte) : Byte := if 65 ≤ b ∧ b ≤ 90 then b + 32 else b

/-- The bytes of `"status"`. -/
def statusLower : List Byte := strBytes "status"

/-- ASCII digit test. -/
def isDigit (b : Byte) : Bool := 48 ≤ b && b ≤ 57

/-- Decimal value of a digit run. -/
def digitsVal (ds : List Byte) : Nat := ds.foldl (fun a b => a * 10 + (b - 48)) 0

/-- A nonempty all-digit run parsed as a natural number. -/
def digitsToNat (ds : List Byte) : Option Nat :=
  if ds ≠ [] ∧ ds.all isDigit then some (digitsVal ds) else none

/-- `strconv.Atoi`: optional sign, then digits, nothing else; errors
(including 64-bit overflow) yield `none`. -/
def goAtoi (s : List Byte) : Option Int :=
  match s with
  | 43 :: rest =>
    (digitsToNat rest).bind fun n =>
      if n ≤ 9223372036854775807 then some (Int.ofNat n) else none
  | 45 :: rest =>
    (digitsToNat rest).bind fun n =>
      if n ≤ 9223372036854775808 then some (-(Int.ofNat n)) else none
  | _ =>
    (digitsToNat s).bind fun n =>
      if n ≤ 9223372036854775807 then some (Int.ofNat n) else none

/-- The value of the capture group of `^HTTP/.+(\d\d\d)` under greedy
`.+`: the last position in the list where three consecutive digits
start.  (Applied only to `\n`-free lines, where `.` matches every
byte.) -/
def lastCode : List Byte → Option Nat
  | x :: y :: z :: rest =>
    match lastCode (y :: z :: rest) with
    | some v => some v
    | none =>
      if isDigit x && isDigit y && isDigit z then
        some ((x - 48) * 100 + (y - 48) * 10 + (z - 48))
      else none
  | _ => none

/-- `status_re = ^HTTP/.+(\d\d\d)` applied to a header line: the line
must start with `HTTP/`, then at least one arbitrary byte, then the
capture; greedy `.+` selects the last three-digit run.  The captured
code is at most 999, so `strconv.ParseInt(_, 10, 16)` always succeeds. -/
def statusLineCode : List Byte → Option Nat
  | 72 :: 84 :: 84 :: 80 :: 47 :: _ :: rest => lastCode rest
  | _ => none

/-- One iteration of the header-line loop of the stdout goroutine
(src/cgi.go 406-429).  `s[len(s)-1]` on an empty line is a Go panic. -/
def procLine (acc : RW × Int) (s0 : List Byte) : Except GoPanic (RW × Int) :=
  match s0.getLast? with
  | none => Except.error GoPanic.indexOutOfRange
  | some a =>
    let s := if a = CR then s0.dropLast else s0
    match splitOnceColon s with
    | (p0, some p1) =>
      let name := trimSpaces p0
      let val := trimSpaces p1
      if name.map lowerByte = statusLower then
        match goAtoi val with
        | some x => Except.ok (acc.1, x)
        | none => Except.ok acc
      else
        Except.ok ({ acc.1 with hdrSet := acc.1.hdrSet ++ [(name, val)] }, acc.2)
    | (_, none) =>
      match statusLineCode s with
      | some x => Except.ok (acc.1, (x : Int))
      | none => Except.ok acc

/-- Parsing of the accumulated header block: split on `\n` and run the
line loop from the current writer and pending status. -/
def parseHdrBlock (w : RW) (status : Int) (hdr : List Byte) : Except GoPanic (RW × Int) :=
  (splitOnByte LF hdr).foldlM procLine (w, status)

/-- State of the stdout-piping goroutine: the persistent 512-byte read
buffer, the header/body mode flag, the pending status, the accumulated
header bytes, and the response writer. -/
structure TState where
  buf : List Byte
  isheader : Bool
  status : Int
  hdr : List Byte
  w : RW
deriving DecidableEq, Repr

/-- Initial goroutine state: `make([]byte, 512)` is zeroed, `isheader =
true`, `status = 200`, empty header buffer. -/
def initT : TState := ⟨List.replicate 512 0, true, 200, [], initRW⟩

/-- Processing of one successful `stdout.Read` that returned the `n`
bytes `c` (src/cgi.go 399-453).  The read overwrites the first `n`
bytes of the persistent buffer; `eoh.FindIndex(buf)` scans the whole
buffer.  `ctx.IsStopped()` is the `stopped` parameter. -/
def stepChunk (stopped : Bool) (st : TState) (c : List Byte) : Except GoPanic TState :=
  let n := c.length
  if n = 0 then Except.ok st
  else
    let buf := c ++ st.buf.drop n
    if st.isheader then
      match findEoh buf with
      | some (i0, i1) =>
        let hdr := st.hdr ++ buf.take i0
        match parseHdrBlock st.w st.status hdr with
        | Except.error p => Except.error p
        | Except.ok (w0, status) =>
          let w1 :=
            if stopped = false then
              let w2 := wWriteHeader w0 status
              if i1 < n - 1 then wWrite w2 ((buf.drop i1).take (n - i1)) else w2
            else w0
          Except.ok ⟨buf, false, status, hdr, w1⟩
      | none => Except.ok { st with buf := buf, hdr := st.hdr ++ buf.take n }
    else
      if stopped = false then
        Except.ok { st with buf := buf, w := wWrite st.w (buf.take n) }
      else
        Except.ok { st with buf := buf }

/-- The whole stdout-piping loop over the successful reads, from the
fresh goroutine state. -/
def runChunks (stopped : Bool) (cs : List (List Byte)) : Except GoPanic TState :=
  cs.foldlM (stepChunk stopped) initT

/-- The buffer contents after the first read `c` (`c` over the zeroed
buffer). -/
def mkBuf (c : List Byte) : List Byte :=
  c ++ (List.replicate 512 (0 : Byte)).drop c.length

/-- Modelled from the spec (amended C1 wording): the status value a
single header line sets, if any - a `Status:` line (name compared
case-insensitively) whose value parses as an integer, or a colon-free
`HTTP/...` status line with a three-digit code. -/
def lineStatusVal (s0 : List Byte) : Option Int :=
  match s0.getLast? with
  | none => none
  | some a =>
    let s := if a = CR then s0.dropLast else s0
    match splitOnceColon s with
    | (p0, some p1) =>
      if (trimSpaces p0).map lowerByte = statusLower then goAtoi (trimSpaces p1)
      else none
    | (_, none) => (statusLineCode s).map Int.ofNat

/-- Modelled from the spec (amended C1 wording): the status committed
for a header block is the value set by the last status-setting line,
and 200 when no line sets one. -/
def specStatus (hdr : List Byte) : Int :=
  (((splitOnByte LF hdr).filterMap lineStatusVal).getLast?).getD 200

/-- Modelled from the claim C1 wording: the parsed value of a
`Status:` header line (for exhibiting which lines are Status lines). -/
def statusHeaderVal (s0 : List Byte) : Option Int :=
  match s0.getLast? with
  | none => none
  | some a =>
    let s := if a = CR then s0.dropLast else s0
    match splitOnceColon s with
    | (p0, some p1) =>
      if (trimSpaces p0).map lowerByte = statusLower then goAtoi (trimSpaces p1)
      else none
    | (_, none) => none

/-- `strings.Split(host, ":")` (src/cgi.go 302). -/
def goSplit (sep : Char) : List Char → List (List Char)
  | [] => [[]]
  | c :: rest =>
    match goSplit sep rest with
    | [] => [[]]
    | h :: t => if c = sep then [] :: h :: t else (c :: h) :: t

/-- `SERVER_NAME` / `SERVER_PORT` derivation (src/cgi.go 302-308):
`hp := strings.Split(r.Host, ":")`; name is `hp[0]`; port is `hp[1]`
when `len(hp) > 1`, else `"80"`. -/
def serverNamePort (host : List Char) : List Char × List Char :=
  match goSplit ':' host with
  | [] => ([], ['8', '0'])
  | h :: t =>
    match t with
    | [] => (h, ['8', '0'])
    | p :: _ => (h, p)

/-- Modelled from the spec (amended C6 wording): the name is the text
before the first colon; the port is `"80"` when the host has no colon,
and otherwise the text between the first and the second colon. -/
def serverNamePortSpec (host : List Char) : List Char × List Char :=
  (host.takeWhile (fun c => c ≠ ':'),
   if ':' ∈ host then
     ((host.dropWhile (fun c => c ≠ ':')).drop 1).takeWhile (fun c => c ≠ ':')
   else ['8', '0'])

/-- Header-name normalization (src/cgi.go 312):
`strings.Replace(strings.ToUpper(k), "-", "_", -1)`. -/
def normHdrName (k : String) : String :=
  ⟨k.data.map fun c => if c.toUpper = '-' then '_' else c.toUpper⟩

/-- The header-derived environment entries (src/cgi.go 310-316): for
every value of every header, both `NAME=v` and `HTTP_NAME=v`. -/
def headerEnvPairs (hdrs : List (String × List String)) : List (String × String) :=
  hdrs.flatMap fun kv =>
    kv.2.flatMap fun v =>
      [(normHdrName kv.1, v), ("HTTP_" ++ normHdrName kv.1, v)]

/-- The request data the environment assembly reads. -/
structure ReqInfo where
  path : String
  method : String
  rawQuery : String
  contentLength : Int
  host : List Char
  headers : List (String × List String)

/-- The CGI-standard entries appended after the fixed configuration
(src/cgi.go 295-308), in program order. -/
def stdEnvPairs (r : ReqInfo) : List (String × String) :=
  [("SERVER_PROTOCOL", "HTTP/1.1"), ("GATEWAY_INTERFACE", "CGI/1.1"),
   ("PATH_INFO", r.path), ("REQUEST_METHOD", r.method),
   ("QUERY_STRING", r.rawQuery), ("CONTENT_LENGTH", toString r.contentLength),
   ("SERVER_NAME", String.mk (serverNamePort r.host).1),
   ("SERVER_PORT", String.mk (serverNamePort r.host).2)]

/-- Full environment assembly (src/cgi.go 294-316): the fixed
configuration entries first, then the CGI-standard entries, then the
header-derived entries. -/
def assembleEnv (fixedEnvs : List (String × String)) (r : ReqInfo) : List (String × String) :=
  fixedEnvs ++ stdEnvPairs r ++ headerEnvPairs r.headers

/-- What the subprocess observes for a name: per `os/exec`, with
duplicate keys only the last entry of the slice is used. -/
def lastWins (env : List (String × String)) (name : String) : Option String :=
  ((env.filter fun p => p.1 = name).getLast?).map Prod.snd

/-- `NxContext` as far as response termination is concerned: the
monotone `stopped` flag and the response writer. -/
structure Ctx where
  stopped : Bool
  rw : RW
deriving DecidableEq, Repr

/-- `NxContext.End` (src/context.go 147-152). -/
def ctxEnd (c : Ctx) (status : Int) : Ctx :=
  if c.stopped = false then ⟨true, wWriteHeader c.rw status⟩ else c

/-- `NxContext.SendBytes` (src/context.go 117-120): writes
unconditionally. -/
def ctxSendBytes (c : Ctx) (b : List Byte) : Ctx := ⟨c.stopped, wWrite c.rw b⟩

/-- `NxContext.SendString` (src/context.go 122-125). -/
def ctxSendString (c : Ctx) (t : String) : Ctx := ctxSendBytes c (strBytes t)

/-- `NxContext.IsStopped` (src/context.go 154-156). -/
def ctxIsStopped (c : Ctx) : Bool := c.stopped

/-- `NxContext.UrlParam` (src/context.go 41-47): `idx < len(params)`
admits negative indices, and `params[idx]` then panics. -/
def urlParam (params : List String) (idx : Int) : Except GoPanic String :=
  if idx < (params.length : Int) then
    match idx with
    | Int.ofNat n => Except.ok (params.getD n "")
    | Int.negSucc _ => Except.error GoPanic.indexOutOfRange
  else Except.ok ""

/-- `DefaultProcessor.SetTimeout` (src/unnamed/part_000 48-53): only a
positive argument changes the timeout. -/
def procSetTimeout (t i : Int) : Int := if 0 < i then i else t

/-- `BaseEntry.SetTimeout` (src/entry.go 97-104): with a positive
argument, apply `SetTimeout` to every processor of the chain; otherwise
do nothing. -/
def entrySetTimeout (ts : List Int) (i : Int) : List Int :=
  if 0 < i then ts.map (fun t => procSetTimeout t i) else ts

deriving instance DecidableEq for Except

/-! Helper lemmas shared by the claim theorems below. -/

/-- Bind of a successful `Except` computation reduces. -/
theorem exceptBindOk (a : α) (f : α → Except ε β) : (Except.ok a >>= f) = f a := rfl

/-- Peeling a head off a `getLast?`-with-default: the head becomes the
new default. -/
theorem getLastGetDCons (a d : α) (l : List α) :
    ((a :: l).getLast?).getD d = (l.getLast?).getD a := by
  cases l with
  | nil => simp
  | cons b t =>
    rw [List.getLast?_cons_cons]
    obtain ⟨x, hx⟩ := Option.isSome_iff_exists.mp (List.getLast?_isSome.mpr (by simp : b :: t ≠ []))
    rw [hx]
    simp

/-- On a nonempty line, `procLine` succeeds, updates the pending status
exactly as `lineStatusVal` prescribes, never touches the committed
status or the body, and only ever sets headers whose lower-cased name
is not `status`. -/
theorem procLineSpec (w : RW) (st : Int) (l : List Byte) (hne : l ≠ []) :
    ∃ w1, procLine (w, st) l = Except.ok (w1, (lineStatusVal l).getD st) ∧
      w1.committed = w.committed ∧ w1.out = w.out ∧
      ∀ p ∈ w1.hdrSet, p ∈ w.hdrSet ∨ p.1.map lowerByte ≠ statusLower := by
  obtain ⟨a, ha⟩ := Option.isSome_iff_exists.mp (List.getLast?_isSome.mpr hne)
  simp only [procLine, lineStatusVal, ha]
  cases hsp : splitOnceColon (if a = CR then l.dropLast else l) with
  | mk p0 p1opt =>
    cases p1opt with
    | some p1 =>
      by_cases hname : (trimSpaces p0).map lowerByte = statusLower
      · cases hat : goAtoi (trimSpaces p1) with
        | some x =>
          refine ⟨w, ?_, rfl, rfl, fun p hp => Or.inl hp⟩
          simp [hsp, hname, hat]
        | none =>
          refine ⟨w, ?_, rfl, rfl, fun p hp => Or.inl hp⟩
          simp [hsp, hname, hat]
      · refine ⟨{ w with hdrSet := w.hdrSet ++ [(trimSpaces p0, trimSpaces p1)] }, ?_, rfl, rfl, ?_⟩
        · simp [hsp, hname]
        · intro p hp
          rcases List.mem_append.mp hp with h1 | h2
          · exact Or.inl h1
          · simp only [List.mem_singleton] at h2
            subst h2
            exact Or.inr hname
    | none =>
      cases hsl : statusLineCode (if a = CR then l.dropLast else l) with
      | some x =>
        refine ⟨w, ?_, rfl, rfl, fun p hp => Or.inl hp⟩
        simp [hsp, hsl]
      | none =>
        refine ⟨w, ?_, rfl, rfl, fun p hp => Or.inl hp⟩
        simp [hsp, hsl]

/-- On a block of nonempty lines the line loop succeeds and its final
pending status is the last status assignment of the lines (default: the
incoming status); headers set along the way are never `status`-named. -/
theorem foldLinesSpec (lines : List (List Byte)) :
    ∀ (w : RW) (st : Int), (∀ l ∈ lines, l ≠ []) →
    ∃ w1, lines.foldlM procLine (w, st) =
        Except.ok (w1, ((lines.filterMap lineStatusVal).getLast?).getD st) ∧
      w1.committed = w.committed ∧ w1.out = w.out ∧
      ∀ p ∈ w1.hdrSet, p ∈ w.hdrSet ∨ p.1.map lowerByte ≠ statusLower := by
  induction lines with
  | nil =>
    intro w st _
    exact ⟨w, by simp [List.foldlM]; rfl, rfl, rfl, fun p hp => Or.inl hp⟩
  | cons l ls ih =>
    intro w st h
    obtain ⟨w1, heq, hc, ho, hmem⟩ := procLineSpec w st l (h l (by simp))
    obtain ⟨w2, heq2, hc2, ho2, hmem2⟩ :=
      ih w1 ((lineStatusVal l).getD st) (fun x hx => h x (by simp [hx]))
    refine ⟨w2, ?_, by rw [hc2, hc], by rw [ho2, ho], ?_⟩
    · rw [List.foldlM_cons, heq, exceptBindOk, heq2]
      congr 2
      cases hv : lineStatusVal l with
      | none => simp [List.filterMap_cons, hv]
      | some v => simp [List.filterMap_cons, hv, getLastGetDCons]
    · intro p hp
      rcases hmem2 p hp with h1 | h2
      · exact hmem p h1
      · exact Or.inr h2

/-- If a chunk step ends still in the header-reading state, the step
started in that state and performed no write at all. -/
theorem stepHeaderSilent (stopped : Bool) (st : TState) (c : List Byte) (st' : TState)
    (h : stepChunk stopped st c = Except.ok st') (hh : st'.isheader = true) :
    st'.w = st.w ∧ st.isheader = true := by
  unfold stepChunk at h
  by_cases hn : c.length = 0
  · rw [if_pos hn] at h
    cases h
    exact ⟨rfl, hh⟩
  · rw [if_neg hn] at h
    by_cases hih : st.isheader
    · simp only [hih, if_true] at h
      cases hf : findEoh (c ++ st.buf.drop c.length) with
      | some p =>
        rw [hf] at h
        obtain ⟨i0, i1⟩ := p
        dsimp only at h
        cases hp : parseHdrBlock st.w st.status (st.hdr ++ (c ++ st.buf.drop c.length).take i0) with
        | error e => rw [hp] at h; cases h
        | ok r =>
          obtain ⟨w0, s0⟩ := r
          rw [hp] at h
          cases h
          cases hh
      | none =>
        rw [hf] at h
        cases h
        exact ⟨rfl, hih⟩
    · simp only [hih, if_false] at h
      simp only [Bool.not_eq_true] at hih
      cases hst : stopped with
      | false => rw [hst] at h; simp only [if_pos rfl] at h; cases h; simp only [hih] at hh; cases hh
      | true =>
        rw [hst] at h
        simp only [if_neg (by decide : ¬(true = false))] at h
        cases h
        simp only [hih] at hh
        cases hh

/-- The whole loop, while it stays in the header-reading state, leaves
the response writer untouched. -/
theorem foldHeaderSilent (stopped : Bool) (cs : List (List Byte)) :
    ∀ (st0 st : TState), cs.foldlM (stepChunk stopped) st0 = Except.ok st →
      st.isheader = true → st.w = st0.w ∧ st0.isheader = true := by
  induction cs with
  | nil =>
    intro st0 st h hh
    simp only [List.foldlM_nil] at h
    cases h
    exact ⟨rfl, hh⟩
  | cons a l ih =>
    intro st0 st h hh
    rw [List.foldlM_cons] at h
    cases hs : stepChunk stopped st0 a with
    | error e => rw [hs] at h; cases h
    | ok st1 =>
      rw [hs, exceptBindOk] at h
      obtain ⟨h1, h2⟩ := ih st1 st h hh
      obtain ⟨h3, h4⟩ := stepHeaderSilent stopped st0 a st1 hs h2
      exact ⟨h1.trans h3, h4⟩

/-- The line loop never changes the committed status or the body
output, whatever line it processes. -/
theorem procLineWriter (acc : RW × Int) (l : List Byte) (r : RW × Int)
    (h : procLine acc l = Except.ok r) :
    r.1.committed = acc.1.committed ∧ r.1.out = acc.1.out := by
  unfold procLine at h
  split at h
  · exact Except.noConfusion h
  · dsimp only at h
    split at h
    · split at h
      · split at h
        · cases h; exact ⟨rfl, rfl⟩
        · cases h; exact ⟨rfl, rfl⟩
      · cases h; exact ⟨rfl, rfl⟩
    · split at h
      · cases h; exact ⟨rfl, rfl⟩
      · cases h; exact ⟨rfl, rfl⟩

/-- Folded version of `procLineWriter`. -/
theorem foldLinesWriter (lines : List (List Byte)) :
    ∀ (acc : RW × Int) (r : RW × Int), lines.foldlM procLine acc = Except.ok r →
      r.1.committed = acc.1.committed ∧ r.1.out = acc.1.out := by
  induction lines with
  | nil =>
    intro acc r h
    simp only [List.foldlM_nil] at h
    cases h
    exact ⟨rfl, rfl⟩
  | cons a l ih =>
    intro acc r h
    rw [List.foldlM_cons] at h
    cases hs : procLine acc a with
    | error e => rw [hs] at h; cases h
    | ok acc1 =>
      rw [hs, exceptBindOk] at h
      obtain ⟨h1, h2⟩ := ih acc1 r h
      obtain ⟨h3, h4⟩ := procLineWriter acc a acc1 hs
      exact ⟨h1.trans h3, h2.trans h4⟩

/-- With the context stopped, one chunk step never commits a status and
never writes a body byte. -/
theorem stepStopped (st : TState) (c : List Byte) (st' : TState)
    (h : stepChunk true st c = Except.ok st') :
    st'.w.committed = st.w.committed ∧ st'.w.out = st.w.out := by
  unfold stepChunk at h
  by_cases hn : c.length = 0
  · rw [if_pos hn] at h
    cases h
    exact ⟨rfl, rfl⟩
  · rw [if_neg hn] at h
    by_cases hih : st.isheader
    · simp only [hih, if_true] at h
      cases hf : findEoh (c ++ st.buf.drop c.length) with
      | some p =>
        rw [hf] at h
        obtain ⟨i0, i1⟩ := p
        dsimp only at h
        cases hp : parseHdrBlock st.w st.status (st.hdr ++ (c ++ st.buf.drop c.length).take i0) with
        | error e => rw [hp] at h; cases h
        | ok r =>
          obtain ⟨w0, s0⟩ := r
          rw [hp] at h
          dsimp only at h
          rw [if_neg (by decide : ¬((true : Bool) = false))] at h
          cases h
          exact foldLinesWriter _ _ _ hp
      | none =>
        rw [hf] at h
        cases h
        exact ⟨rfl, rfl⟩
    · simp only [hih, if_false] at h
      rw [if_neg (by decide : ¬((true : Bool) = false))] at h
      cases h
      exact ⟨rfl, rfl⟩

/-- Folded version of `stepStopped`. -/
theorem foldStopped (cs : List (List Byte)) :
    ∀ (st0 st : TState), cs.foldlM (stepChunk true) st0 = Except.ok st →
      st.w.committed = st0.w.committed ∧ st.w.out = st0.w.out := by
  induction cs with
  | nil =>
    intro st0 st h
    simp only [List.foldlM_nil] at h
    cases h
    exact ⟨rfl, rfl⟩
  | cons a l ih =>
    intro st0 st h
    rw [List.foldlM_cons] at h
    cases hs : stepChunk true st0 a with
    | error e => rw [hs] at h; cases h
    | ok st1 =>
      rw [hs, exceptBindOk] at h
      obtain ⟨h1, h2⟩ := ih st1 st h
      obtain ⟨h3, h4⟩ := stepStopped st0 a st1 hs
      exact ⟨h1.trans h3, h2.trans h4⟩

/-- Structural characterization of `goSplit`: head is the longest
separator-free prefix, tail is the split of what follows the first
separator. -/
theorem goSplitEq (sep : Char) (l : List Char) :
    goSplit sep l = l.takeWhile (fun c => c ≠ sep) ::
      (if sep ∈ l then goSplit sep ((l.dropWhile (fun c => c ≠ sep)).drop 1) else []) := by
  induction l with
  | nil => simp [goSplit]
  | cons c rest ih =>
    by_cases hc : c = sep
    · subst hc
      have h1 : (c :: rest).takeWhile (fun x => x ≠ c) = [] := by
        rw [List.takeWhile_cons]
        simp
      have h2 : (c :: rest).dropWhile (fun x => x ≠ c) = c :: rest := by
        rw [List.dropWhile_cons]
        simp
      simp only [goSplit]
      rw [ih]
      dsimp only
      rw [if_pos trivial, h1, h2, if_pos (List.mem_cons_self c rest)]
      have h4 : (c :: rest).drop 1 = rest := rfl
      rw [h4, ih]
    · have h1 : (c :: rest).takeWhile (fun x => x ≠ sep) =
          c :: rest.takeWhile (fun x => x ≠ sep) := by
        rw [List.takeWhile_cons]
        simp [hc]
      have h2 : (c :: rest).dropWhile (fun x => x ≠ sep) =
          rest.dropWhile (fun x => x ≠ sep) := by
        rw [List.dropWhile_cons]
        simp [hc]
      have h3 : (sep ∈ c :: rest) ↔ (sep ∈ rest) := by
        constructor
        · intro h
          rcases List.mem_cons.mp h with h | h
          · exact absurd h.symm hc
          · exact h
        · exact fun h => List.mem_cons_of_mem c h
      simp only [goSplit]
      rw [ih]
      dsimp only
      rw [if_neg hc, h1, h2]
      by_cases hr : sep ∈ rest
      · rw [if_pos hr, if_pos (h3.mpr hr)]
      · rw [if_neg hr, if_neg (fun hh => hr (h3.mp hh))]

/-- Each header value contributes exactly two environment entries. -/
theorem pairsLen (nm : String) (vs : List String) :
    (vs.flatMap fun v => [(nm, v), ("HTTP_" ++ nm, v)]).length = 2 * vs.length := by
  induction vs with
  | nil => rfl
  | cons a t ih =>
    simp only [List.flatMap_cons, List.length_append, List.length_cons, List.length_nil, ih]
    omega

/-- Total size of the header-derived environment. -/
theorem headerEnvLen (hdrs : List (String × List String)) :
    (headerEnvPairs hdrs).length = 2 * (hdrs.map fun kv => kv.2.length).sum := by
  induction hdrs with
  | nil => rfl
  | cons kv rest ih =>
    simp only [headerEnvPairs, List.flatMap_cons, List.length_append, List.map_cons,
      List.sum_cons] at ih ⊢
    rw [ih, pairsLen]
    omega

/-- A positive timeout stays positive under any sequence of
`SetTimeout` calls. -/
theorem foldTimeoutPos (calls : List Int) :
    ∀ t : Int, 0 < t → 0 < calls.foldl procSetTimeout t := by
  induction calls with
  | nil => intro t h; simpa using h
  | cons a l ih =>
    intro t h
    rw [List.foldl_cons]
    apply ih
    unfold procSetTimeout
    split
    · assumption
    · exact h

/-! Claim theorems. -/

/-- Claim C1, counterexample: the claim gives a `Status:` header line
priority over a colon-free status line, but the code processes lines in
order with last-write-wins.  For the single-chunk output
`"Status: 404\nHTTP/1.1 500 OK\n\nhi"` the only `Status:` header line
parses to 404, yet the committed status is 500 (the later status
line). -/
theorem c1_counterexample :
    ((splitOnByte LF ((mkBuf (strBytes "Status: 404\nHTTP/1.1 500 OK\n\nhi")).take 27)).filterMap
      statusHeaderVal) = [(404 : Int)] ∧
    (runChunks false [strBytes "Status: 404\nHTTP/1.1 500 OK\n\nhi"]).toOption.map
      (fun st => st.w.committed) = some (some 500) ∧
    (500 : Int) ≠ 404 := by
  decide

/-- Claim C1, amended: for CGI output whose header block (with its
separator) is fully contained in the first read chunk and parses
without a fault, the committed status is the value set by the *last*
status-setting line - a `Status:` header line (name case-insensitive,
unparsable values ignored) or a colon-free `HTTP/<version> <code>`
status line - and 200 when no line sets one; a header line named
`Status` (any letter case) is never set as a forwarded response
header. -/
theorem c1_amended (c : List Byte) (i0 i1 : Nat) (hne : c ≠ [])
    (hfind : findEoh (mkBuf c) = some (i0, i1))
    (hlines : ∀ l ∈ splitOnByte LF ((mkBuf c).take i0), l ≠ []) :
    ∃ st, runChunks false [c] = Except.ok st ∧
      st.w.committed = some (specStatus ((mkBuf c).take i0)) ∧
      ∀ p ∈ st.w.hdrSet, p.1.map lowerByte ≠ statusLower := by
  have hn : ¬(c.length = 0) := fun h => hne (List.length_eq_zero.mp h)
  obtain ⟨w1, heq, hc, ho, hmem⟩ :=
    foldLinesSpec (splitOnByte LF ((mkBuf c).take i0)) initRW 200 hlines
  have hcn : w1.committed = none := by rw [hc]; rfl
  have hparse : parseHdrBlock initRW 200 ((mkBuf c).take i0) =
      Except.ok (w1, specStatus ((mkBuf c).take i0)) := heq
  have hmem' : ∀ p ∈ w1.hdrSet, p.1.map lowerByte ≠ statusLower := by
    intro p hp
    rcases hmem p hp with h1 | h2
    · exact absurd h1 (by simp [initRW])
    · exact h2
  have hrun : runChunks false [c] = stepChunk false initT c := by
    simp only [runChunks, List.foldlM_cons, List.foldlM_nil]
    cases stepChunk false initT c <;> rfl
  by_cases hI : i1 < c.length - 1
  · refine ⟨⟨mkBuf c, false, specStatus ((mkBuf c).take i0), (mkBuf c).take i0,
      wWrite { w1 with committed := some (specStatus ((mkBuf c).take i0)) }
        (((mkBuf c).drop i1).take (c.length - i1))⟩, ?_, by simp [wWrite], ?_⟩
    · rw [hrun]
      unfold stepChunk
      simp only [initT, mkBuf] at hfind hparse ⊢
      rw [if_neg hn]
      simp only [List.nil_append, if_true, hfind, hparse, wWriteHeader, hcn, if_pos rfl,
        if_pos hI]
    · intro p hp
      simp only [wWrite] at hp
      exact hmem' p hp
  · refine ⟨⟨mkBuf c, false, specStatus ((mkBuf c).take i0), (mkBuf c).take i0,
      { w1 with committed := some (specStatus ((mkBuf c).take i0)) }⟩, ?_, by simp, ?_⟩
    · rw [hrun]
      unfold stepChunk
      simp only [initT, mkBuf] at hfind hparse ⊢
      rw [if_neg hn]
      simp only [List.nil_append, if_true, hfind, hparse, wWriteHeader, hcn, if_pos rfl,
        if_neg hI]
    · intro p hp
      exact hmem' p hp

/-- Claim C1, witness: `c1_amended` at the concrete one-chunk output
`"A: 1\n\nxy"`, whose separator is at bytes 4..6. -/
theorem c1_amended_witness :
    ∃ st, runChunks false [strBytes "A: 1\n\nxy"] = Except.ok st ∧
      st.w.committed = some (specStatus ((mkBuf (strBytes "A: 1\n\nxy")).take 4)) ∧
      ∀ p ∈ st.w.hdrSet, p.1.map lowerByte ≠ statusLower :=
  c1_amended (strBytes "A: 1\n\nxy") 4 6 (by decide) (by decide) (by decide)

/-- Claim C2, counterexample: for the two reads `"A: 1\r"` and
`"\n\r\nok"` the header/body separator of the stream (bytes 4..7 of
the concatenation) straddles the read boundary, yet the translator
still detects a separator (the suffix `\n\r\n` alone matches
`\r?\n\r?\n`), commits status 200, forwards the header `A: 1` and
writes the body `"ok"` - refuting that nothing is ever forwarded when
the separator is split across two reads. -/
theorem c2_counterexample :
    findEoh (strBytes "A: 1\r" ++ strBytes "\n\r\nok") = some (4, 8) ∧
    4 < (strBytes "A: 1\r").length ∧ (strBytes "A: 1\r").length < 8 ∧
    (runChunks false [strBytes "A: 1\r", strBytes "\n\r\nok"]).toOption.map
      (fun st => (st.isheader, st.w.committed)) = some (false, some 200) ∧
    (runChunks false [strBytes "A: 1\r", strBytes "\n\r\nok"]).toOption.map
      (fun st => (st.w.hdrSet, st.w.out)) =
      some ([(strBytes "A", strBytes "1")], strBytes "ok") := by
  decide

/-- Claim C2, amended: the translator scans the whole 512-byte read
buffer (the current chunk followed by residue of earlier reads), so a
separator can be missed at the boundary it straddles and can also be
matched against residue bytes; what does hold is that as long as no
scanned buffer ever contains a match - i.e. the translator is still in
the header-reading state after the whole stream - no status is
committed and no header or body byte is forwarded. -/
theorem c2_amended (stopped : Bool) (cs : List (List Byte)) (st : TState)
    (h : runChunks stopped cs = Except.ok st) (hh : st.isheader = true) :
    st.w.committed = none ∧ st.w.out = [] ∧ st.w.hdrSet = [] := by
  obtain ⟨hw, _⟩ := foldHeaderSilent stopped cs initT st h hh
  rw [hw]
  exact ⟨rfl, rfl, rfl⟩

/-- Claim C2, witness: `c2_amended` at the two reads `"X-Part: 1\r"`
and `"\nX-More: 2"`, whose separator straddles the boundary and where
no buffer ever matches. -/
theorem c2_amended_witness :
    ((runChunks false [strBytes "X-Part: 1\r", strBytes "\nX-More: 2"]).toOption.getD
        initT).w.committed = none ∧
    ((runChunks false [strBytes "X-Part: 1\r", strBytes "\nX-More: 2"]).toOption.getD
        initT).w.out = [] ∧
    ((runChunks false [strBytes "X-Part: 1\r", strBytes "\nX-More: 2"]).toOption.getD
        initT).w.hdrSet = [] :=
  c2_amended false [strBytes "X-Part: 1\r", strBytes "\nX-More: 2"]
    ((runChunks false [strBytes "X-Part: 1\r", strBytes "\nX-More: 2"]).toOption.getD initT)
    (by decide) (by decide)

/-- Claim C3: a subprocess output whose header block is empty - first
chunk `"\n\nbody"` - makes the header parser evaluate `s[len(s)-1]` on
an empty line, a runtime index-out-of-range fault inside the stdout
goroutine (which no recover boundary of another goroutine can catch). -/
theorem c3_code_bug :
    runChunks false [strBytes "\n\nbody"] = Except.error GoPanic.indexOutOfRange := by
  decide

/-- Claim C4, counterexample: after `End(404)` has terminated the
response, `SendBytes` still writes its bytes unconditionally - a
response byte is written after termination, refuting the claim as
stated. -/
theorem c4_counterexample :
    (ctxEnd ⟨false, initRW⟩ 404).stopped = true ∧
    (ctxSendBytes (ctxEnd ⟨false, initRW⟩ 404) (strBytes "x")).rw.out = strBytes "x" ∧
    strBytes "x" ≠ [] := by
  decide

/-- Claim C4, amended: `End` is idempotent (only its first call writes
the status line; later calls are no-ops), and once the context is
stopped the CGI output translator never commits a status nor writes a
body byte regardless of subsequent subprocess output; `SendBytes` and
`SendString`, however, do not consult the stopped flag. -/
theorem c4_amended (ctx : Ctx) (s1 s2 : Int) (cs : List (List Byte)) (st : TState)
    (h : runChunks true cs = Except.ok st) :
    ctxEnd (ctxEnd ctx s1) s2 = ctxEnd ctx s1 ∧
    st.w.committed = none ∧ st.w.out = [] := by
  refine ⟨?_, ?_⟩
  · unfold ctxEnd
    by_cases hs : ctx.stopped = false
    · rw [if_pos hs]
      rw [if_neg (by simp)]
    · rw [if_neg hs, if_neg hs]
  · obtain ⟨h1, h2⟩ := foldStopped cs initT st h
    exact ⟨h1, h2⟩

/-- Claim C4, witness: `c4_amended` at a fresh context with statuses
404 and 500 and the stopped translator run on `"A: 1\n\nbody"`. -/
theorem c4_amended_witness :
    ctxEnd (ctxEnd ⟨false, initRW⟩ 404) 500 = ctxEnd ⟨false, initRW⟩ 404 ∧
    ((runChunks true [strBytes "A: 1\n\nbody"]).toOption.getD initT).w.committed = none ∧
    ((runChunks true [strBytes "A: 1\n\nbody"]).toOption.getD initT).w.out = [] :=
  c4_amended ⟨false, initRW⟩ 404 500 [strBytes "A: 1\n\nbody"]
    ((runChunks true [strBytes "A: 1\n\nbody"]).toOption.getD initT) (by decide)

/-- Claim C5: for the single chunk `"X: 1\n\nb"` (7 bytes) the
separator ends at offset 6 = n-1, so exactly one body byte follows it;
the guard `idx[1] < n-1` is then false and the byte `b` is silently
dropped: the status is committed but no body byte is written. -/
theorem c5_code_bug :
    findEoh (mkBuf (strBytes "X: 1\n\nb")) = some (4, 6) ∧
    (strBytes "X: 1\n\nb").length = 7 ∧
    (runChunks false [strBytes "X: 1\n\nb"]).toOption.map
      (fun st => (st.w.committed, st.w.out)) = some (some 200, ([] : List Byte)) := by
  decide

/-- Claim C6, counterexample: for the IPv6 Host `"[::1]:8080"`,
`strings.Split(host, ":")` yields `["[", "", "1]", "8080"]`, so
`SERVER_NAME` is `"["` (not the host without port `"[::1]"`) and
`SERVER_PORT` is `""` (not the port segment `"8080"`). -/
theorem c6_counterexample :
    serverNamePort ("[::1]:8080".data) = ("[".data, "".data) ∧
    ("[".data : List Char) ≠ "[::1]".data ∧
    ("".data : List Char) ≠ "8080".data := by
  decide

/-- Claim C6, amended: for every Host value, `SERVER_NAME` is the text
before the first colon (the whole host if it has none) and
`SERVER_PORT` is `"80"` when the host contains no colon and otherwise
the text between the first and second colons - which equals the port
exactly when the host part itself is colon-free, but not for IPv6
literals. -/
theorem c6_amended (host : List Char) : serverNamePort host = serverNamePortSpec host := by
  unfold serverNamePort serverNamePortSpec
  rw [goSplitEq]
  by_cases hm : ':' ∈ host
  · rw [if_pos hm, if_pos hm, goSplitEq]
  · rw [if_neg hm, if_neg hm]

/-- Claim C7: for every request header name with a value, the
environment contains both `NAME=v` and `HTTP_NAME=v` with the name
upper-cased and hyphens turned to underscores, and exactly one such
pair (two entries) is produced per header value, so repeated values
produce repeated pairs. -/
theorem c7_confirmed (hdrs : List (String × List String)) (k v : String) (vs : List String)
    (h1 : (k, vs) ∈ hdrs) (h2 : v ∈ vs) :
    (normHdrName k, v) ∈ headerEnvPairs hdrs ∧
    ("HTTP_" ++ normHdrName k, v) ∈ headerEnvPairs hdrs ∧
    (headerEnvPairs hdrs).length = 2 * (hdrs.map fun kv => kv.2.length).sum := by
  refine ⟨?_, ?_, headerEnvLen hdrs⟩
  · exact List.mem_flatMap.mpr ⟨(k, vs), h1, List.mem_flatMap.mpr ⟨v, h2, by simp⟩⟩
  · exact List.mem_flatMap.mpr ⟨(k, vs), h1, List.mem_flatMap.mpr ⟨v, h2, by simp⟩⟩

/-- Claim C7, witness: `c7_confirmed` at the header `X-Foo` carrying
the value `bar` twice. -/
theorem c7_confirmed_witness :
    (normHdrName "X-Foo", "bar") ∈ headerEnvPairs [("X-Foo", ["bar", "bar"])] ∧
    ("HTTP_" ++ normHdrName "X-Foo", "bar") ∈ headerEnvPairs [("X-Foo", ["bar", "bar"])] ∧
    (headerEnvPairs [("X-Foo", ["bar", "bar"])]).length =
      2 * ([("X-Foo", ["bar", "bar"])].map fun kv => kv.2.length).sum :=
  c7_confirmed [("X-Foo", ["bar", "bar"])] "X-Foo" "bar" ["bar", "bar"]
    (by simp) (by simp)

/-- Claim C8, counterexample: the fixed configuration entries are
appended *first* (src/cgi.go 294), so on a collision the CGI-standard
value wins: with fixed entry `SERVER_PROTOCOL=HTTP/9` the subprocess
observes `HTTP/1.1`, not the fixed value. -/
theorem c8_counterexample :
    lastWins (assembleEnv [("SERVER_PROTOCOL", "HTTP/9")] ⟨"/", "GET", "", 0, "h".data, []⟩)
      "SERVER_PROTOCOL" = some "HTTP/1.1" ∧
    some "HTTP/1.1" ≠ some "HTTP/9" := by
  decide

/-- Claim C8, amended: collisions resolve last-write-wins, but the
fixed configuration entries are the *earliest* assignments; for every
name also defined by a CGI-standard or header-derived entry, the value
the subprocess observes is the last of those later entries, whatever
the fixed configuration says. -/
theorem c8_amended (fixedEnvs : List (String × String)) (r : ReqInfo) (name : String)
    (h : ((stdEnvPairs r ++ headerEnvPairs r.headers).filter fun p => p.1 = name) ≠ []) :
    lastWins (assembleEnv fixedEnvs r) name =
      lastWins (stdEnvPairs r ++ headerEnvPairs r.headers) name := by
  unfold lastWins assembleEnv
  rw [List.append_assoc, List.filter_append, List.getLast?_append_of_ne_nil _ h]

/-- Claim C8, witness: `c8_amended` at the name `SERVER_PROTOCOL` with
a colliding fixed entry. -/
theorem c8_amended_witness :
    lastWins (assembleEnv [("SERVER_PROTOCOL", "HTTP/9")] ⟨"/", "GET", "", 0, "h".data, []⟩)
        "SERVER_PROTOCOL" =
      lastWins (stdEnvPairs ⟨"/", "GET", "", 0, "h".data, []⟩ ++
        headerEnvPairs (ReqInfo.headers ⟨"/", "GET", "", 0, "h".data, []⟩)) "SERVER_PROTOCOL" :=
  c8_amended [("SERVER_PROTOCOL", "HTTP/9")] ⟨"/", "GET", "", 0, "h".data, []⟩
    "SERVER_PROTOCOL" (by decide)

/-- Claim C9: `UrlParam(-1)` passes the `idx < len(params)` guard and
indexes the slice with a negative index - a runtime fault - while
indices at or beyond the length yield the empty string and in-range
indices yield the parameter. -/
theorem c9_code_bug :
    urlParam ["a"] (-1) = Except.error GoPanic.indexOutOfRange ∧
    urlParam ["a"] 1 = Except.ok "" ∧ urlParam ["a"] 0 = Except.ok "a" := by
  decide

/-- Claim C10: `SetTimeout` with a non-positive argument changes
neither a processor's timeout nor any processor of an entry's chain,
and a positive timeout stays positive under every sequence of
`SetTimeout` calls, so the Gateway's deadline-branch selection is
stable. -/
theorem c10_confirmed (t i : Int) (ts : List Int) (calls : List Int) :
    (i ≤ 0 → procSetTimeout t i = t ∧ entrySetTimeout ts i = ts) ∧
    (0 < t → 0 < calls.foldl procSetTimeout t) := by
  constructor
  · intro h
    constructor
    · unfold procSetTimeout
      rw [if_neg (by omega)]
    · unfold entrySetTimeout
      rw [if_neg (by omega)]
  · exact foldTimeoutPos calls t

/-- Claim C10, witness: `c10_confirmed` at timeout 5, argument -1, the
chain `[3]` and the call sequence `[-2, 0, 7]`. -/
theorem c10_confirmed_witness :
    (procSetTimeout 5 (-1) = 5 ∧ entrySetTimeout [3] (-1) = [3]) ∧
    0 < [(-2 : Int), 0, 7].foldl procSetTimeout 5 :=
  ⟨(c10_confirmed 5 (-1) [3] [(-2), 0, 7]).1 (by decide),
   (c10_confirmed 5 (-1) [3] [(-2), 0, 7]).2 (by decide)⟩
